import Mathlib

/-!
Shallow embedding of the e2e_demo sync tool (`sync.py`) and the relevant
behavior of the in-memory sink service (`app.py`), together with proofs of
the specified properties of the retry executor, the paginated fetcher, the
reconciler and the dry-run reporter.

Durations and jitter draws are modelled as rationals; network effects
(responses, faults, sleeps) are made explicit as data.
-/

/-- A source/sink record: `{external_id, name, value}` (sync.py payloads and
app.py items). -/
structure Rec where
  external_id : String
  name : String
  value : Int
deriving DecidableEq

/-- A page response from `GET /source/items`: `{items, next_page}`. -/
structure Page where
  items : List Rec
  next_page : Option Nat
deriving DecidableEq

/-- `RetryPolicy` dataclass from sync.py (defaults 6, 0.4s, 5.0s). -/
structure RetryPolicy where
  max_attempts : Nat := 6
  base_delay_s : ℚ := 2/5
  max_delay_s : ℚ := 5
deriving DecidableEq

/-- `backoff(attempt, base, cap)` from sync.py: exponential backoff with
jitter; `r` models the `random.random()` draw in `[0, 1)`. -/
def backoff (attempt : Nat) (base cap : ℚ) (r : ℚ) : ℚ :=
  let delay := min cap (base * 2 ^ (attempt - 1))
  delay * (1/2 + r)

/-- `should_retry(status_code)` from sync.py. -/
def should_retry (status_code : Nat) : Bool :=
  if status_code = 429 then true
  else if 500 ≤ status_code ∧ status_code ≤ 599 then true
  else if status_code = 408 then true
  else false

/-- Value of digit characters read in base 10 (helper for `parseFloat`). -/
def digitsVal (ds : List Char) : Nat :=
  ds.foldl (fun a c => a * 10 + (c.toNat - 48)) 0

/-- Decidable part of `parseFloat`: recognizes an optionally signed decimal
literal and returns (negative?, integer-part value, fractional-part value,
fractional-part digit count), or `none` when the string is not such a
literal. -/
def parseFloatAux (s : String) : Option (Bool × Nat × Nat × Nat) :=
  let cs := s.data
  let neg := cs.head? = some '-'
  let rest := if cs.head? = some '-' ∨ cs.head? = some '+' then cs.tail else cs
  let ip := rest.takeWhile Char.isDigit
  let tl := rest.dropWhile Char.isDigit
  if tl = [] then
    if ip = [] then none else some (decide neg, digitsVal ip, 0, 0)
  else if tl.head? = some '.' ∧ tl.tail.all Char.isDigit ∧ (ip ≠ [] ∨ tl.tail ≠ []) then
    some (decide neg, digitsVal ip, digitsVal tl.tail, tl.tail.length)
  else none

/-- Models Python `float(s)` on the fragment exercised by `Retry-After`
headers: optionally signed decimal literals (digits with an optional
fractional part). Returns `none` where `float` raises `ValueError`;
exponents, whitespace, infinities and NaN are outside the modelled
fragment. -/
def parseFloat (s : String) : Option ℚ :=
  match parseFloatAux s with
  | none => none
  | some (neg, ipv, fpv, fl) =>
    some ((if neg then -1 else 1) * ((ipv : ℚ) + (fpv : ℚ) / (10 : ℚ) ^ fl))

/-- An HTTP response as observed by the retry executor: its status code and
its `Retry-After` header (when present). -/
structure Resp where
  status : Nat
  retryAfter : Option String
deriving DecidableEq

/-- The outcome of one attempt of the wrapped operation: a response, or a
network-level fault (`httpx.TimeoutException` / `httpx.NetworkError`). -/
inductive Attempt where
  | resp (r : Resp)
  | netError
deriving DecidableEq

/-- The exceptions `request_with_retries` can surface. -/
inductive Err where
  | httpStatus (code : Nat)
  | net
  | runtimeErr
deriving DecidableEq

/-- What `request_with_retries` gives its caller: a returned response or a
raised exception. -/
inductive Outcome where
  | resp (r : Resp)
  | raised (e : Err)
deriving DecidableEq

/-- Result of a `request_with_retries` run, with the effect trace made
explicit: the outcome, every `time.sleep` duration in order, and the number
of attempts performed. -/
structure ReqResult where
  outcome : Outcome
  sleeps : List ℚ
  nAttempts : Nat
deriving DecidableEq

/-- The `for attempt in range(1, max_attempts + 1)` loop body of
`request_with_retries` in sync.py, over the remaining attempt indices.
`att` gives each attempt's result, `rand` the `random.random()` draw used
at each attempt. -/
def reqLoop (att : Nat → Attempt) (pol : RetryPolicy) (rand : Nat → ℚ) :
    List Nat → Option Err → List ℚ → Nat → ReqResult
  | [], lastExc, sleeps, n =>
    match lastExc with
    | some e => ⟨.raised e, sleeps, n⟩
    | none => ⟨.raised .runtimeErr, sleeps, n⟩
  | attempt :: rest, lastExc, sleeps, n =>
    match att attempt with
    | .resp r =>
      if r.status < 400 then ⟨.resp r, sleeps, n + 1⟩
      else if should_retry r.status = true ∧ attempt < pol.max_attempts then
        let sleep_s : ℚ :=
          match r.retryAfter with
          | some hs =>
            if hs ≠ "" then
              match parseFloat hs with
              | some q => q
              | none => backoff attempt pol.base_delay_s pol.max_delay_s (rand attempt)
            else backoff attempt pol.base_delay_s pol.max_delay_s (rand attempt)
          | none => backoff attempt pol.base_delay_s pol.max_delay_s (rand attempt)
        reqLoop att pol rand rest lastExc (sleeps ++ [sleep_s]) (n + 1)
      else ⟨.raised (.httpStatus r.status), sleeps, n + 1⟩
    | .netError =>
      if pol.max_attempts ≤ attempt then ⟨.raised .net, sleeps, n + 1⟩
      else reqLoop att pol rand rest (some .net)
        (sleeps ++ [backoff attempt pol.base_delay_s pol.max_delay_s (rand attempt)]) (n + 1)

/-- `request_with_retries` from sync.py: run the attempt loop over the
indices `1, ..., max_attempts`. -/
def request_with_retries (att : Nat → Attempt) (pol : RetryPolicy) (rand : Nat → ℚ) : ReqResult :=
  reqLoop att pol rand (List.range' 1 pol.max_attempts) none [] 0

/-- The `while page and page <= max_pages` loop of `fetch_all_source_items`
in sync.py, assuming every page request succeeds within its retry budget
(`resp` gives the decoded JSON of page `p`). The first component is the
accumulated `items`, the second the number of page fetches performed.
`fuel` is an artificial step bound: the Python loop has none, and its
guard only inspects the cursor value (`page <= 100`), not a fetch count. -/
def fetchGo (resp : Nat → Page) (limit : Option Nat) :
    Nat → Option Nat → List Rec → Nat → List Rec × Nat
  | _, none, acc, cnt => (acc, cnt)
  | 0, some _, acc, cnt => (acc, cnt)
  | fuel + 1, some p, acc, cnt =>
    if p = 0 ∨ 100 < p then (acc, cnt)
    else
      let data := resp p
      let items := acc ++ data.items
      match limit with
      | some l =>
        if l ≤ items.length then (items, cnt + 1)
        else fetchGo resp limit fuel data.next_page items (cnt + 1)
      | none => fetchGo resp limit fuel data.next_page items (cnt + 1)

/-- `fetch_all_source_items` from sync.py: run the pagination loop from
page 1 and truncate to `limit` when one is given. Also reports the number
of page fetches performed. -/
def fetch_all_source_items (resp : Nat → Page) (limit : Option Nat) (fuel : Nat) :
    List Rec × Nat :=
  let r := fetchGo resp limit fuel (some 1) [] 0
  match limit with
  | some l => (r.1.take l, r.2)
  | none => r

/-- The sink's in-memory store `SINK_ITEMS_BY_EXTERNAL_ID` from app.py: an
insertion-ordered map from `external_id` to the stored payload. -/
abbrev SinkDb := List (String × Rec)

/-- Key membership in the sink store (`external_id not in ...` in app.py). -/
def containsKey (db : SinkDb) (k : String) : Bool :=
  db.any (fun kv => kv.1 == k)

/-- Python dict assignment `d[k] = v`: replace in place when the key is
present, append otherwise. -/
def setKey : SinkDb → String → Rec → SinkDb
  | [], k, v => [(k, v)]
  | kv :: rest, k, v => if kv.1 == k then (k, v) :: rest else kv :: setKey rest k v

/-- `sink_upsert` from app.py on its success path (no simulated 429):
store the payload under its `external_id` and report `"created"` when the
key was absent, `"updated"` otherwise. -/
def sink_upsert (db : SinkDb) (p : Rec) : SinkDb × String :=
  let created := !(containsKey db p.external_id)
  (setKey db p.external_id p, if created then "created" else "updated")

/-- `SyncOutcome` counters accumulated by `upsert_sink_items`. -/
structure SyncStats where
  created_count : Nat
  updated_count : Nat
  failed_count : Nat
deriving DecidableEq

/-- The per-record loop of `upsert_sink_items` in sync.py. `f` performs one
record's upsert through the retry executor: it transforms the sink-side
state and either returns the sink's `status` string or raises (models a
retry budget exhausted or any other exception). Returns the final
sink-side state, the tallied counters, and the sequence of submitted
payloads in order. -/
def upsertGo {σ ε : Type} (f : σ → Rec → σ × Except ε String) :
    σ → List Rec → σ × SyncStats × List Rec
  | s, [] => (s, ⟨0, 0, 0⟩, [])
  | s, it :: rest =>
    let payload : Rec := { external_id := it.external_id, name := it.name, value := it.value }
    let r := f s payload
    let t := upsertGo f r.1 rest
    match r.2 with
    | .ok st =>
      if st = "created" then
        (t.1, ⟨t.2.1.created_count + 1, t.2.1.updated_count, t.2.1.failed_count⟩, payload :: t.2.2)
      else
        (t.1, ⟨t.2.1.created_count, t.2.1.updated_count + 1, t.2.1.failed_count⟩, payload :: t.2.2)
    | .error _ =>
      (t.1, ⟨t.2.1.created_count, t.2.1.updated_count, t.2.1.failed_count + 1⟩, payload :: t.2.2)

/-- `upsert_sink_items` from sync.py. -/
def upsert_sink_items {σ ε : Type} (f : σ → Rec → σ × Except ε String) (s : σ)
    (items : List Rec) : σ × SyncStats × List Rec :=
  upsertGo f s items

/-- One sync run's reconciliation phase against the sink store, every
upsert succeeding at the HTTP layer (app.py `sink_upsert` semantics). -/
def sinkF (db : SinkDb) (p : Rec) : SinkDb × Except Unit String :=
  let r := sink_upsert db p
  (r.1, .ok r.2)

/-- The sink store after `upsert_sink_items` pushes `rs` into `db`. -/
def syncOnce (db : SinkDb) (rs : List Rec) : SinkDb :=
  (upsert_sink_items sinkF db rs).1

/-- The dry-run report artifact written by `main` in sync.py. -/
structure Report where
  run_id : String
  timestamp : String
  count : Nat
  external_ids : List String
deriving DecidableEq

/-- Observable outcome of a `main` invocation: the exit code, the sink-side
state, the report artifact (dry-run only), and the submitted payloads. -/
structure MainResult (σ : Type) where
  exitCode : Nat
  sink : σ
  report : Option Report
  submissions : List Rec

/-- `main` from sync.py after argument parsing: fetch all (or `limit`)
source items; in dry-run mode write the report and exit 0 without touching
the sink; otherwise reconcile and exit 0 on no failures, 2 otherwise. -/
def mainRun {σ ε : Type} (resp : Nat → Page) (dryRun : Bool) (limit : Option Nat)
    (fuel : Nat) (f : σ → Rec → σ × Except ε String) (s0 : σ)
    (run_id timestamp : String) : MainResult σ :=
  let items := (fetch_all_source_items resp limit fuel).1
  if dryRun then
    { exitCode := 0, sink := s0,
      report := some { run_id := run_id, timestamp := timestamp, count := items.length,
                       external_ids := (items.take 20).map (·.external_id) },
      submissions := [] }
  else
    let u := upsert_sink_items f s0 items
    { exitCode := if u.2.1.failed_count = 0 then 0 else 2, sink := u.1,
      report := none, submissions := u.2.2 }

/-- A misbehaving source whose next-page cursor always repeats as 1. -/
def repeatingResp : Nat → Page := fun _ => { items := [], next_page := some 1 }

/-- An attempt outcome that keeps the retry loop going: a network fault or
a retryable error status. -/
def failsRetryably (a : Attempt) : Prop :=
  match a with
  | .netError => True
  | .resp r => should_retry r.status = true

/-- Whether a reconciliation outcome is a raised exception. -/
def isErr {ε : Type} : Except ε String → Bool
  | .error _ => true
  | .ok _ => false

def wG : Rec → Except Unit String :=
  fun p => if p.external_id = "b" then .error () else .ok "created"

def wF : Unit → Rec → Unit × Except Unit String := fun _ p => ((), wG p)

def wItems : List Rec := [⟨"a", "a", 0⟩, ⟨"b", "b", 1⟩, ⟨"c", "c", 2⟩]

def wResp : Nat → Page := fun _ => { items := wItems, next_page := none }

/-- A well-behaved paginated source: page `p` carries the records
`pi p`, and the next-page cursor is `p + 1` until page `N`, absent there
(the shape app.py's `/source/items` produces). -/
def pagedResp (pi : Nat → List Rec) (N : Nat) : Nat → Page :=
  fun p => { items := pi p, next_page := if p < N then some (p + 1) else none }

/-- Concatenation of the page item lists of pages `p, p+1, ..., p+n-1`. -/
def concatFrom (pi : Nat → List Rec) : Nat → Nat → List Rec
  | _, 0 => []
  | p, n + 1 => pi p ++ concatFrom pi (p + 1) n

/-- One-record pages used to instantiate the fetcher postcondition. -/
def wpi : Nat → List Rec := fun p => [⟨toString p, "x", (p : Int)⟩]

example : should_retry 429 = true := by decide
example : should_retry 503 = true := by decide
example : should_retry 404 = false := by decide
example : parseFloatAux "-1" = some (true, 1, 0, 0) := by decide
example : parseFloatAux "2.5" = some (false, 2, 5, 1) := by decide
example : parseFloatAux "" = none := by decide
example : parseFloatAux "abc" = none := by decide
example : parseFloat "-1" = some (-1) := by
  have h : parseFloatAux "-1" = some (true, 1, 0, 0) := by decide
  rw [parseFloat, h]; norm_num
example : parseFloat "2.5" = some (5/2) := by
  have h : parseFloatAux "2.5" = some (false, 2, 5, 1) := by decide
  rw [parseFloat, h]; norm_num

lemma fetchGo_repeating (fuel : Nat) : ∀ (acc : List Rec) (cnt : Nat),
    fetchGo repeatingResp none fuel (some 1) acc cnt = (acc, cnt + fuel) := by
  induction fuel with
  | zero => intro acc cnt; simp [fetchGo]
  | succ m ih =>
    intro acc cnt
    have h1 : ¬((1 : Nat) = 0 ∨ 100 < (1 : Nat)) := by omega
    simp only [fetchGo, h1, if_false, repeatingResp, List.append_nil]
    rw [ih]
    congr 1
    omega

/-- C6: the pagination loop's hard bound fails against a misbehaving
source. With a cursor that always repeats as 1, the loop guard
(`page <= 100`, a bound on the cursor value, not on the fetch count) never
becomes false: for every step budget `fuel`, the loop performs exactly
`fuel` page fetches and is still running — it does not stop after 100
fetches, contradicting the guarantee of a hard 100-page safety bound. -/
theorem fetch_repeating_cursor_unbounded :
    ∀ fuel : Nat, fetchGo repeatingResp none fuel (some 1) [] 0 = ([], fuel) := by
  intro fuel
  simpa using fetchGo_repeating fuel [] 0

/-- C5: the computed backoff delay for attempt `n` equals
`min(max_delay, base * 2^(n-1)) * (0.5 + r)` where `r` is the jitter draw
in `[0, 1)`, and it always lies in
`[0.5 * min(cap, base * 2^(n-1)), 1.5 * min(cap, base * 2^(n-1)))`. -/
theorem backoff_formula_bound (n : Nat) (base cap r : ℚ)
    (_hn : 1 ≤ n) (hb : 0 < base) (hc : 0 < cap) (hr0 : 0 ≤ r) (hr1 : r < 1) :
    backoff n base cap r = min cap (base * 2 ^ (n - 1)) * (1/2 + r)
    ∧ (1/2) * min cap (base * 2 ^ (n - 1)) ≤ backoff n base cap r
    ∧ backoff n base cap r < (3/2) * min cap (base * 2 ^ (n - 1)) := by
  have hd : 0 < min cap (base * 2 ^ (n - 1)) := by positivity
  have hmul0 : 0 ≤ min cap (base * 2 ^ (n - 1)) * r := mul_nonneg hd.le hr0
  have hmul1 : min cap (base * 2 ^ (n - 1)) * r < min cap (base * 2 ^ (n - 1)) * 1 :=
    mul_lt_mul_of_pos_left hr1 hd
  refine ⟨rfl, ?_, ?_⟩ <;> · show _; unfold backoff; ring_nf; ring_nf at hmul1; linarith

theorem backoff_formula_bound_witness :
    (1 ≤ 1) ∧ (0 < (2/5 : ℚ)) ∧ (0 < (5 : ℚ)) ∧ ((0 : ℚ) ≤ 0) ∧ ((0 : ℚ) < 1)
    ∧ (backoff 1 (2/5) 5 0 = min 5 ((2/5) * 2 ^ (1 - 1)) * (1/2 + 0)
       ∧ (1/2) * min 5 ((2/5 : ℚ) * 2 ^ (1 - 1)) ≤ backoff 1 (2/5) 5 0
       ∧ backoff 1 (2/5) 5 0 < (3/2) * min 5 ((2/5 : ℚ) * 2 ^ (1 - 1))) :=
  ⟨le_refl 1, by norm_num, by norm_num, le_refl 0, by norm_num,
    backoff_formula_bound 1 (2/5) 5 0 (le_refl 1) (by norm_num) (by norm_num)
      (le_refl 0) (by norm_num)⟩

lemma reqLoop_nAttempts_ge (att : Nat → Attempt) (pol : RetryPolicy) (rand : Nat → ℚ) :
    ∀ (idxs : List Nat) (lastExc : Option Err) (sleeps : List ℚ) (n : Nat),
      n ≤ (reqLoop att pol rand idxs lastExc sleeps n).nAttempts := by
  intro idxs
  induction idxs with
  | nil => intro lastExc sleeps n; cases lastExc <;> simp [reqLoop]
  | cons i rest ih =>
    intro lastExc sleeps n
    cases h : att i with
    | resp r =>
      by_cases h1 : r.status < 400
      · simp [reqLoop, h, h1]
      · by_cases h2 : should_retry r.status = true ∧ i < pol.max_attempts
        · simp only [reqLoop, h, if_neg h1, if_pos h2]
          exact le_trans (by omega) (ih lastExc _ (n + 1))
        · simp [reqLoop, h, h1, h2]
    | netError =>
      by_cases h1 : pol.max_attempts ≤ i
      · simp [reqLoop, h, h1]
      · simp only [reqLoop, h, if_neg h1]
        exact le_trans (by omega) (ih (some .net) _ (n + 1))

lemma reqLoop_cons_nAttempts (att : Nat → Attempt) (pol : RetryPolicy) (rand : Nat → ℚ)
    (i : Nat) (rest : List Nat) (lastExc : Option Err) (sleeps : List ℚ) (n : Nat) :
    n + 1 ≤ (reqLoop att pol rand (i :: rest) lastExc sleeps n).nAttempts := by
  cases h : att i with
  | resp r =>
    by_cases h1 : r.status < 400
    · simp [reqLoop, h, h1]
    · by_cases h2 : should_retry r.status = true ∧ i < pol.max_attempts
      · simp only [reqLoop, h, if_neg h1, if_pos h2]
        exact reqLoop_nAttempts_ge att pol rand rest lastExc _ (n + 1)
      · simp [reqLoop, h, h1, h2]
  | netError =>
    by_cases h1 : pol.max_attempts ≤ i
    · simp [reqLoop, h, h1]
    · simp only [reqLoop, h, if_neg h1]
      exact reqLoop_nAttempts_ge att pol rand rest (some .net) _ (n + 1)

/-- C3: `should_retry` accepts exactly 429, 408 and 500–599; on the first
attempt a response with status below 400 is returned immediately (one
attempt, no sleeps), a non-retryable status at or above 400 raises
immediately (one attempt, no sleeps), and a retryable status at or above
400 leads to at least a second attempt when the budget allows it. -/
theorem retry_classification (att : Nat → Attempt) (pol : RetryPolicy) (rand : Nat → ℚ)
    (r : Resp) (hmax : 1 ≤ pol.max_attempts) (hatt : att 1 = .resp r) :
    (∀ s : Nat, should_retry s = true ↔ (s = 429 ∨ s = 408 ∨ (500 ≤ s ∧ s ≤ 599)))
    ∧ (r.status < 400 →
        request_with_retries att pol rand = ⟨.resp r, [], 1⟩)
    ∧ (400 ≤ r.status → should_retry r.status = false →
        request_with_retries att pol rand = ⟨.raised (.httpStatus r.status), [], 1⟩)
    ∧ (should_retry r.status = true → 2 ≤ pol.max_attempts →
        2 ≤ (request_with_retries att pol rand).nAttempts) := by
  obtain ⟨m, hm⟩ : ∃ m, pol.max_attempts = m + 1 := ⟨pol.max_attempts - 1, by omega⟩
  have hrange : List.range' 1 pol.max_attempts = 1 :: List.range' 2 m := by
    rw [hm, List.range'_succ]
  refine ⟨?_, ?_, ?_, ?_⟩
  · intro s
    unfold should_retry
    split_ifs with h1 h2 h3 <;> simp_all
  · intro hlt
    unfold request_with_retries
    rw [hrange]
    simp [reqLoop, hatt, hlt]
  · intro hge hsr
    unfold request_with_retries
    rw [hrange]
    have h1 : ¬ r.status < 400 := by omega
    have h2 : ¬ (should_retry r.status = true ∧ 1 < pol.max_attempts) := by
      simp [hsr]
    simp [reqLoop, hatt, h1, h2]
  · intro hsr h2
    obtain ⟨m', hm'⟩ : ∃ m', m = m' + 1 := ⟨m - 1, by omega⟩
    unfold request_with_retries
    rw [hrange]
    have h1 : ¬ r.status < 400 := by
      have := (by decide : ∀ b : Bool, b = true → b ≠ false) _ hsr
      unfold should_retry at hsr
      split_ifs at hsr <;> omega
    have hcond : should_retry r.status = true ∧ 1 < pol.max_attempts := ⟨hsr, by omega⟩
    simp only [reqLoop, hatt, if_neg h1, if_pos hcond]
    rw [hm', List.range'_succ]
    exact reqLoop_cons_nAttempts att pol rand 2 _ none _ 1

theorem retry_classification_witness :
    (1 ≤ (6 : Nat))
    ∧ (should_retry 429 = true ↔ (429 = 429 ∨ 429 = 408 ∨ (500 ≤ 429 ∧ 429 ≤ 599)))
    ∧ ((200 : Nat) < 400 →
        request_with_retries (fun _ => .resp ⟨200, none⟩) {} (fun _ => 0)
          = ⟨.resp ⟨200, none⟩, [], 1⟩) := by
  have h := retry_classification (fun _ => .resp ⟨200, none⟩) {} (fun _ => 0)
    ⟨200, none⟩ (by decide) rfl
  exact ⟨by decide, h.1 429, h.2.1⟩

lemma should_retry_ge_400 (s : Nat) (h : should_retry s = true) : 400 ≤ s := by
  unfold should_retry at h
  split_ifs at h with h1 h2 h3
  · omega
  · omega
  · omega

lemma reqLoop_resp_lt_400 (att : Nat → Attempt) (pol : RetryPolicy) (rand : Nat → ℚ) :
    ∀ (idxs : List Nat) (lastExc : Option Err) (sleeps : List ℚ) (n : Nat) (r : Resp),
      (reqLoop att pol rand idxs lastExc sleeps n).outcome = .resp r → r.status < 400 := by
  intro idxs
  induction idxs with
  | nil => intro l s n r h; cases l <;> simp [reqLoop] at h
  | cons i rest ih =>
    intro l s n r h
    cases ha : att i with
    | resp r' =>
      by_cases h1 : r'.status < 400
      · simp [reqLoop, ha, h1] at h
        rw [← h]
        exact h1
      · by_cases h2 : should_retry r'.status = true ∧ i < pol.max_attempts
        · simp only [reqLoop, ha, if_neg h1, if_pos h2] at h
          exact ih _ _ _ r h
        · simp [reqLoop, ha, h1, h2] at h
    | netError =>
      by_cases h1 : pol.max_attempts ≤ i
      · simp [reqLoop, ha, h1] at h
      · simp only [reqLoop, ha, if_neg h1] at h
        exact ih _ _ _ r h

lemma reqLoop_exhaust (att : Nat → Attempt) (pol : RetryPolicy) (rand : Nat → ℚ)
    (H : ∀ i, 1 ≤ i → i < pol.max_attempts → failsRetryably (att i)) :
    ∀ (j a : Nat), a + j = pol.max_attempts → 1 ≤ a →
      ∀ (lastExc : Option Err) (sleeps : List ℚ) (n : Nat),
        (att pol.max_attempts = .netError →
          (reqLoop att pol rand (List.range' a (j + 1)) lastExc sleeps n).outcome
            = .raised .net)
        ∧ (∀ r, att pol.max_attempts = .resp r → 400 ≤ r.status →
          (reqLoop att pol rand (List.range' a (j + 1)) lastExc sleeps n).outcome
            = .raised (.httpStatus r.status)) := by
  intro j
  induction j with
  | zero =>
    intro a hsum ha lastExc sleeps n
    have haeq : a = pol.max_attempts := by omega
    subst haeq
    constructor
    · intro hnet
      have h1 : pol.max_attempts ≤ pol.max_attempts := le_refl _
      simp [List.range'_one, reqLoop, hnet, h1]
    · intro r hresp hge
      have h1 : ¬ r.status < 400 := by omega
      have h2 : ¬ (should_retry r.status = true ∧ pol.max_attempts < pol.max_attempts) := by
        rintro ⟨-, hlt⟩; omega
      simp [List.range'_one, reqLoop, hresp, h1, h2]
  | succ m ih =>
    intro a hsum ha lastExc sleeps n
    have halt : a < pol.max_attempts := by omega
    have hfa : failsRetryably (att a) := H a ha halt
    rw [List.range'_succ]
    cases hatt : att a with
    | resp r' =>
      have hsr : should_retry r'.status = true := by
        rw [hatt] at hfa; exact hfa
      have h1 : ¬ r'.status < 400 := by
        have := should_retry_ge_400 _ hsr; omega
      have h2 : should_retry r'.status = true ∧ a < pol.max_attempts := ⟨hsr, halt⟩
      simp only [reqLoop, hatt, if_neg h1, if_pos h2]
      exact ih (a + 1) (by omega) (by omega) lastExc _ (n + 1)
    | netError =>
      have h1 : ¬ pol.max_attempts ≤ a := by omega
      simp only [reqLoop, hatt, if_neg h1]
      exact ih (a + 1) (by omega) (by omega) (some .net) _ (n + 1)

/-- C7: after `max_attempts` attempts none of which succeeded (each
pre-final attempt a network fault or retryable error status),
`request_with_retries` raises the last observed failure — the final
attempt's network fault or status error; and every response object it
actually returns has status < 400. -/
theorem retry_exhaustion_surfaced (att : Nat → Attempt) (pol : RetryPolicy) (rand : Nat → ℚ) :
    (∀ r, (request_with_retries att pol rand).outcome = .resp r → r.status < 400)
    ∧ (1 ≤ pol.max_attempts →
       (∀ i, 1 ≤ i → i < pol.max_attempts → failsRetryably (att i)) →
       ((att pol.max_attempts = .netError →
          (request_with_retries att pol rand).outcome = .raised .net)
       ∧ (∀ r, att pol.max_attempts = .resp r → 400 ≤ r.status →
          (request_with_retries att pol rand).outcome
            = .raised (.httpStatus r.status)))) := by
  constructor
  · intro r h
    exact reqLoop_resp_lt_400 att pol rand _ _ _ _ r h
  · intro hmax H
    obtain ⟨m, hm⟩ : ∃ m, pol.max_attempts = m + 1 := ⟨pol.max_attempts - 1, by omega⟩
    have h := reqLoop_exhaust att pol rand H m 1 (by omega) (le_refl 1) none [] 0
    unfold request_with_retries
    rw [hm]
    rw [hm] at h
    exact h

theorem retry_exhaustion_surfaced_witness :
    (1 ≤ (6 : Nat))
    ∧ (request_with_retries (fun _ => .resp ⟨503, none⟩) {} (fun _ => 0)).outcome
        = .raised (.httpStatus 503)
    ∧ (∀ r, (request_with_retries (fun _ => .resp ⟨503, none⟩) {} (fun _ => 0)).outcome
        = .resp r → r.status < 400) := by
  have h := retry_exhaustion_surfaced (fun _ => .resp ⟨503, none⟩) {} (fun _ => 0)
  refine ⟨by decide, ?_, h.1⟩
  refine (h.2 (by decide) ?_).2 ⟨503, none⟩ rfl (by decide)
  intro i _ _
  show should_retry 503 = true
  decide

lemma parseFloat_empty_none : parseFloat "" = none := by
  have h : parseFloatAux "" = none := by decide
  unfold parseFloat
  rw [h]

lemma parseFloat_neg_one : parseFloat "-1" = some (-1) := by
  have h : parseFloatAux "-1" = some (true, 1, 0, 0) := by decide
  unfold parseFloat
  rw [h]
  norm_num

lemma reqLoop_sleeps_extend (att : Nat → Attempt) (pol : RetryPolicy) (rand : Nat → ℚ) :
    ∀ (idxs : List Nat) (lastExc : Option Err) (sleeps : List ℚ) (n : Nat),
      ∃ t, (reqLoop att pol rand idxs lastExc sleeps n).sleeps = sleeps ++ t := by
  intro idxs
  induction idxs with
  | nil =>
    intro lastExc sleeps n
    exact ⟨[], by cases lastExc <;> simp [reqLoop]⟩
  | cons i rest ih =>
    intro lastExc sleeps n
    cases ha : att i with
    | resp r =>
      by_cases h1 : r.status < 400
      · exact ⟨[], by simp [reqLoop, ha, h1]⟩
      · by_cases h2 : should_retry r.status = true ∧ i < pol.max_attempts
        · simp only [reqLoop, ha, if_neg h1, if_pos h2]
          obtain ⟨t0, ht0⟩ := ih lastExc (sleeps ++ [_]) (n + 1)
          exact ⟨_, by rw [ht0, List.append_assoc]⟩
        · exact ⟨[], by simp [reqLoop, ha, h1, h2]⟩
    | netError =>
      by_cases h1 : pol.max_attempts ≤ i
      · exact ⟨[], by simp [reqLoop, ha, h1]⟩
      · simp only [reqLoop, ha, if_neg h1]
        obtain ⟨t0, ht0⟩ := ih (some .net) (sleeps ++ [_]) (n + 1)
        exact ⟨_, by rw [ht0, List.append_assoc]⟩

/-- C4 (amended): on a retryable status before the final attempt, the
executor's next sleep equals the parsed `Retry-After` value exactly when
the header is present, non-empty and parses as a number — of any sign, a
negative parsed value being used as-is; it sleeps the computed backoff
exactly when the header is absent, empty, or fails to parse. -/
theorem retry_after_precedence_amended (att : Nat → Attempt) (pol : RetryPolicy)
    (rand : Nat → ℚ) (r : Resp) (hatt : att 1 = .resp r)
    (hsr : should_retry r.status = true) (hmax : 2 ≤ pol.max_attempts) :
    (∀ hs q, r.retryAfter = some hs → parseFloat hs = some q →
       (request_with_retries att pol rand).sleeps.head? = some q)
    ∧ (∀ hs, r.retryAfter = some hs → hs ≠ "" → parseFloat hs = none →
       (request_with_retries att pol rand).sleeps.head?
         = some (backoff 1 pol.base_delay_s pol.max_delay_s (rand 1)))
    ∧ (r.retryAfter = some "" →
       (request_with_retries att pol rand).sleeps.head?
         = some (backoff 1 pol.base_delay_s pol.max_delay_s (rand 1)))
    ∧ (r.retryAfter = none →
       (request_with_retries att pol rand).sleeps.head?
         = some (backoff 1 pol.base_delay_s pol.max_delay_s (rand 1))) := by
  obtain ⟨m, hm⟩ : ∃ m, pol.max_attempts = m + 1 := ⟨pol.max_attempts - 1, by omega⟩
  have hrange : List.range' 1 pol.max_attempts = 1 :: List.range' 2 m := by
    rw [hm, List.range'_succ]
  have h1 : ¬ r.status < 400 := by
    have := should_retry_ge_400 _ hsr; omega
  have hcond : should_retry r.status = true ∧ 1 < pol.max_attempts := ⟨hsr, by omega⟩
  refine ⟨?_, ?_, ?_, ?_⟩
  · intro hs q hra hpf
    have hne : hs ≠ "" := by
      intro he; rw [he, parseFloat_empty_none] at hpf; exact Option.noConfusion hpf
    unfold request_with_retries
    rw [hrange]
    simp only [reqLoop, hatt, if_neg h1, if_pos hcond, hra, if_pos hne, hpf]
    obtain ⟨t, ht⟩ := reqLoop_sleeps_extend att pol rand (List.range' 2 m) none ([] ++ [q]) 1
    rw [ht]
    simp
  · intro hs hra hne hpf
    unfold request_with_retries
    rw [hrange]
    simp only [reqLoop, hatt, if_neg h1, if_pos hcond, hra, if_pos hne, hpf]
    obtain ⟨t, ht⟩ := reqLoop_sleeps_extend att pol rand (List.range' 2 m) none
      ([] ++ [backoff 1 pol.base_delay_s pol.max_delay_s (rand 1)]) 1
    rw [ht]
    simp
  · intro hra
    have hne : ¬ ("" : String) ≠ "" := by simp
    unfold request_with_retries
    rw [hrange]
    simp only [reqLoop, hatt, if_neg h1, if_pos hcond, hra, if_neg hne]
    obtain ⟨t, ht⟩ := reqLoop_sleeps_extend att pol rand (List.range' 2 m) none
      ([] ++ [backoff 1 pol.base_delay_s pol.max_delay_s (rand 1)]) 1
    rw [ht]
    simp
  · intro hra
    unfold request_with_retries
    rw [hrange]
    simp only [reqLoop, hatt, if_neg h1, if_pos hcond, hra]
    obtain ⟨t, ht⟩ := reqLoop_sleeps_extend att pol rand (List.range' 2 m) none
      ([] ++ [backoff 1 pol.base_delay_s pol.max_delay_s (rand 1)]) 1
    rw [ht]
    simp

theorem retry_after_precedence_amended_witness :
    ((fun _ => Attempt.resp ⟨429, some "2.5"⟩) 1 = Attempt.resp ⟨429, some "2.5"⟩)
    ∧ should_retry 429 = true
    ∧ 2 ≤ (⟨6, 2/5, 5⟩ : RetryPolicy).max_attempts
    ∧ (request_with_retries (fun _ => .resp ⟨429, some "2.5"⟩) ⟨6, 2/5, 5⟩
        (fun _ => 0)).sleeps.head? = some (5/2) := by
  have hpf : parseFloat "2.5" = some (5/2) := by
    have h : parseFloatAux "2.5" = some (false, 2, 5, 1) := by decide
    unfold parseFloat
    rw [h]
    norm_num
  have h := retry_after_precedence_amended (fun _ => .resp ⟨429, some "2.5"⟩)
    ⟨6, 2/5, 5⟩ (fun _ => 0) ⟨429, some "2.5"⟩ rfl (by decide) (by decide)
  exact ⟨rfl, by decide, by decide, h.1 "2.5" (5/2) rfl hpf⟩

/-- C4 counterexample: against the claim, a `Retry-After` header that
parses as a negative number is not replaced by the computed backoff — the
executor's first sleep is the negative value itself (here `-1`), while the
computed backoff for attempt 1 would have been `1/5`. -/
theorem retry_after_negative_counterexample :
    parseFloat "-1" = some (-1)
    ∧ ((-1 : ℚ) < 0)
    ∧ (request_with_retries (fun _ => .resp ⟨429, some "-1"⟩) ⟨6, 2/5, 5⟩
        (fun _ => 0)).sleeps.head? = some (-1)
    ∧ backoff 1 (2/5) 5 0 = 1/5
    ∧ ((-1 : ℚ) ≠ 1/5) := by
  refine ⟨parseFloat_neg_one, by norm_num, ?_, ?_, by norm_num⟩
  · have hrange : List.range' 1 (⟨6, 2/5, 5⟩ : RetryPolicy).max_attempts
        = 1 :: List.range' 2 5 := by decide
    have h1 : ¬ (⟨429, some "-1"⟩ : Resp).status < 400 := by decide
    have hcond : should_retry (⟨429, some "-1"⟩ : Resp).status = true
        ∧ 1 < (⟨6, 2/5, 5⟩ : RetryPolicy).max_attempts := by
      exact ⟨by decide, by decide⟩
    have hne : ("-1" : String) ≠ "" := by decide
    unfold request_with_retries
    rw [hrange]
    simp only [reqLoop, if_neg h1, if_pos hcond, if_pos hne, parseFloat_neg_one]
    norm_num [should_retry]
  · rw [backoff]
    rw [min_eq_right (by norm_num : (2/5 : ℚ) * 2 ^ (1 - 1) ≤ 5)]
    norm_num

lemma upsertGo_spec {σ ε : Type} (f : σ → Rec → σ × Except ε String) :
    ∀ (items : List Rec) (s : σ),
      ((upsertGo f s items).2.2).map (·.external_id) = items.map (·.external_id)
      ∧ (upsertGo f s items).2.1.failed_count + (upsertGo f s items).2.1.created_count
          + (upsertGo f s items).2.1.updated_count = items.length
      ∧ (upsertGo f s items).2.2.length = items.length := by
  intro items
  induction items with
  | nil => intro s; simp [upsertGo]
  | cons it rest ih =>
    intro s
    obtain ⟨ih1, ih2, ih3⟩ :=
      ih ((f s { external_id := it.external_id, name := it.name, value := it.value }).1)
    cases h : (f s { external_id := it.external_id, name := it.name, value := it.value }).2 with
    | ok st =>
      by_cases hst : st = "created" <;>
        · simp [upsertGo, h, hst, ih1, ih3]
          omega
    | error e =>
      simp [upsertGo, h, ih1, ih3]
      omega

/-- C9: every record handed to the Reconciler is submitted exactly once —
the submitted payloads carry exactly the input's `external_id` sequence,
in order and with its multiplicities — and on completion
`failed_count + created_count + updated_count` equals the number of
records presented. -/
theorem reconcile_tally_invariant {σ ε : Type} (f : σ → Rec → σ × Except ε String)
    (s0 : σ) (items : List Rec) :
    ((upsert_sink_items f s0 items).2.2).map (·.external_id) = items.map (·.external_id)
    ∧ (upsert_sink_items f s0 items).2.1.failed_count
        + (upsert_sink_items f s0 items).2.1.created_count
        + (upsert_sink_items f s0 items).2.1.updated_count
      = items.length := by
  obtain ⟨h1, h2, h3⟩ := upsertGo_spec f items s0
  exact ⟨h1, h2⟩

lemma upsertGo_failed_count {σ ε : Type} (f : σ → Rec → σ × Except ε String)
    (g : Rec → Except ε String) (hf : ∀ s p, (f s p).2 = g p) :
    ∀ (items : List Rec) (s : σ),
      (upsertGo f s items).2.1.failed_count
        = items.countP (fun it =>
            isErr (g { external_id := it.external_id, name := it.name, value := it.value })) := by
  intro items
  induction items with
  | nil => intro s; simp [upsertGo]
  | cons it rest ih =>
    intro s
    have hstep := hf s { external_id := it.external_id, name := it.name, value := it.value }
    cases h : g { external_id := it.external_id, name := it.name, value := it.value } with
    | ok st =>
      rw [h] at hstep
      by_cases hst : st = "created" <;>
        · simp [upsertGo, hstep, hst, List.countP_cons, h, isErr, ih]
    | error e =>
      rw [h] at hstep
      simp [upsertGo, hstep, List.countP_cons, h, isErr, ih]

/-- C8: a per-record failure is isolated — every record is still attempted
(the submission trace has one entry per input record), `failed_count`
counts exactly the records whose upsert raised, and the run's exit code is
0 when no record failed and 2 otherwise (never a crash). -/
theorem reconcile_fail_isolation {σ ε : Type} (f : σ → Rec → σ × Except ε String)
    (g : Rec → Except ε String) (s0 : σ) (items : List Rec)
    (hf : ∀ s p, (f s p).2 = g p) :
    (upsert_sink_items f s0 items).2.2.length = items.length
    ∧ (upsert_sink_items f s0 items).2.1.failed_count
        = items.countP (fun it =>
            isErr (g { external_id := it.external_id, name := it.name, value := it.value }))
    ∧ ∀ (resp : Nat → Page) (fuel : Nat) (limit : Option Nat) (rid ts : String),
        ((mainRun resp false limit fuel f s0 rid ts).exitCode = 0
          ∨ (mainRun resp false limit fuel f s0 rid ts).exitCode = 2)
        ∧ ((mainRun resp false limit fuel f s0 rid ts).exitCode = 0
          ↔ (upsert_sink_items f s0
              ((fetch_all_source_items resp limit fuel).1)).2.1.failed_count = 0) := by
  refine ⟨(upsertGo_spec f items s0).2.2, upsertGo_failed_count f g hf items s0, ?_⟩
  intro resp fuel limit rid ts
  unfold mainRun
  by_cases h : (upsert_sink_items f s0 ((fetch_all_source_items resp limit fuel).1)).2.1.failed_count = 0
  · simp [h]
  · simp [h]

theorem reconcile_fail_isolation_witness :
    (upsert_sink_items wF () wItems).2.2.length = wItems.length
    ∧ (upsert_sink_items wF () wItems).2.1.failed_count
        = wItems.countP (fun it =>
            isErr (wG { external_id := it.external_id, name := it.name, value := it.value }))
    ∧ wItems.countP (fun it =>
        isErr (wG { external_id := it.external_id, name := it.name, value := it.value })) = 1
    ∧ ((mainRun wResp false none 2 wF () "rid" "ts").exitCode = 0
        ∨ (mainRun wResp false none 2 wF () "rid" "ts").exitCode = 2) := by
  have h := reconcile_fail_isolation wF wG () wItems (fun s p => rfl)
  exact ⟨h.1, h.2.1, by decide, (h.2.2 wResp 2 none "rid" "ts").1⟩

/-- C10: a dry-run invocation performs no sink write and never invokes the
Reconciler — the sink state is returned unchanged and the submission trace
is empty — exits with code 0, and writes a report containing exactly the
run id, the timestamp, the fetched-record count, and the external ids of
at most the first 20 fetched records. -/
theorem dry_run_purity {σ ε : Type} (resp : Nat → Page) (limit : Option Nat) (fuel : Nat)
    (f : σ → Rec → σ × Except ε String) (s0 : σ) (rid ts : String) :
    mainRun resp true limit fuel f s0 rid ts
      = { exitCode := 0, sink := s0,
          report := some
            { run_id := rid, timestamp := ts,
              count := (fetch_all_source_items resp limit fuel).1.length,
              external_ids :=
                ((fetch_all_source_items resp limit fuel).1.take 20).map (·.external_id) },
          submissions := [] } := rfl

lemma containsKey_setKey_self (db : SinkDb) (k : String) (v : Rec) :
    containsKey (setKey db k v) k = true := by
  induction db with
  | nil => simp [setKey, containsKey]
  | cons kv rest ih =>
    by_cases h : kv.1 == k
    · simp [setKey, h, containsKey]
    · simp only [setKey, h, Bool.false_eq_true, if_false, containsKey, List.any_cons, h,
        Bool.false_or]
      exact ih

lemma containsKey_setKey_mono (db : SinkDb) (k k' : String) (v : Rec)
    (h : containsKey db k' = true) : containsKey (setKey db k v) k' = true := by
  induction db with
  | nil => simp [containsKey] at h
  | cons kv rest ih =>
    simp only [containsKey, List.any_cons, Bool.or_eq_true] at h
    by_cases hk : kv.1 == k
    · rcases h with h | h
      · have h1 : kv.1 = k := by simpa using hk
        have h2 : kv.1 = k' := by simpa using h
        simp [setKey, hk, containsKey, ← h1, h2]
      · simp [setKey, hk, containsKey, h]
    · rcases h with h | h
      · simp [setKey, hk, containsKey, h]
      · simp only [setKey, hk, Bool.false_eq_true, if_false, containsKey, List.any_cons,
          Bool.or_eq_true]
        exact Or.inr (ih h)

lemma setKey_length_of_contains (db : SinkDb) (k : String) (v : Rec)
    (h : containsKey db k = true) : (setKey db k v).length = db.length := by
  induction db with
  | nil => simp [containsKey] at h
  | cons kv rest ih =>
    simp only [containsKey, List.any_cons, Bool.or_eq_true] at h
    by_cases hk : kv.1 == k
    · simp [setKey, hk]
    · rcases h with h | h
      · exact absurd h hk
      · simp only [setKey, hk, Bool.false_eq_true, if_false, List.length_cons]
        rw [ih h]

lemma sink_upsert_of_contains (db : SinkDb) (p : Rec)
    (h : containsKey db p.external_id = true) :
    (sink_upsert db p).2 = "updated" ∧ (sink_upsert db p).1.length = db.length := by
  unfold sink_upsert
  simp only [h]
  exact ⟨rfl, setKey_length_of_contains db p.external_id p h⟩

lemma syncOnce_cons (db : SinkDb) (r : Rec) (rs : List Rec) :
    syncOnce db (r :: rs)
      = syncOnce (setKey db r.external_id ⟨r.external_id, r.name, r.value⟩) rs := by
  unfold syncOnce upsert_sink_items
  show (upsertGo sinkF db (r :: rs)).1 = _
  simp only [upsertGo, sinkF, sink_upsert]
  split <;> rfl

lemma syncOnce_contains_mono (rs : List Rec) : ∀ (db : SinkDb) (k : String),
    containsKey db k = true → containsKey (syncOnce db rs) k = true := by
  induction rs with
  | nil => intro db k h; exact h
  | cons r rest ih =>
    intro db k h
    rw [syncOnce_cons]
    exact ih _ k (containsKey_setKey_mono db r.external_id k _ h)

lemma syncOnce_contains_of_mem (rs : List Rec) : ∀ (db : SinkDb) (r : Rec),
    r ∈ rs → containsKey (syncOnce db rs) r.external_id = true := by
  induction rs with
  | nil => intro db r h; exact absurd h (List.not_mem_nil r)
  | cons it rest ih =>
    intro db r h
    rw [syncOnce_cons]
    rcases List.mem_cons.mp h with h | h
    · subst h
      exact syncOnce_contains_mono rest _ _
        (containsKey_setKey_self db r.external_id _)
    · exact ih _ r h

lemma syncOnce_length_stable (rs : List Rec) : ∀ (db : SinkDb),
    (∀ r ∈ rs, containsKey db r.external_id = true) →
    (syncOnce db rs).length = db.length := by
  induction rs with
  | nil => intro db _; rfl
  | cons it rest ih =>
    intro db h
    rw [syncOnce_cons]
    have hhead : containsKey db it.external_id = true := h it (List.mem_cons_self it rest)
    have hlen : (setKey db it.external_id ⟨it.external_id, it.name, it.value⟩).length
        = db.length := setKey_length_of_contains db it.external_id _ hhead
    rw [ih _ (fun r hr => containsKey_setKey_mono db it.external_id r.external_id _
      (h r (List.mem_cons_of_mem it hr)))]
    exact hlen

/-- C1: the full sync is idempotent — pushing the same record sequence into
an unreset sink a second time leaves the sink's record count unchanged —
and re-submitting a record whose `external_id` is already present reports
`"updated"`, never growing the store. -/
theorem sync_idempotent (db : SinkDb) (rs : List Rec) :
    (syncOnce (syncOnce db rs) rs).length = (syncOnce db rs).length
    ∧ ∀ (db' : SinkDb) (p : Rec), containsKey db' p.external_id = true →
        ((sink_upsert db' p).2 = "updated" ∧ (sink_upsert db' p).1.length = db'.length) := by
  constructor
  · exact syncOnce_length_stable rs (syncOnce db rs)
      (fun r hr => syncOnce_contains_of_mem rs db r hr)
  · intro db' p h
    exact sink_upsert_of_contains db' p h

theorem sync_idempotent_witness :
    containsKey [("a", (⟨"a", "n", 0⟩ : Rec))] "a" = true
    ∧ (syncOnce (syncOnce [] [⟨"a", "n", 0⟩]) [⟨"a", "n", 0⟩]).length
        = (syncOnce [] [(⟨"a", "n", 0⟩ : Rec)]).length
    ∧ (sink_upsert [("a", ⟨"a", "n", 0⟩)] ⟨"a", "n2", 1⟩).2 = "updated"
    ∧ (sink_upsert [("a", ⟨"a", "n", 0⟩)] ⟨"a", "n2", 1⟩).1.length = 1 := by
  have h := sync_idempotent [] [⟨"a", "n", 0⟩]
  have h2 := h.2 [("a", ⟨"a", "n", 0⟩)] ⟨"a", "n2", 1⟩ (by decide)
  exact ⟨by decide, h.1, h2.1, by simpa using h2.2⟩

lemma fetchGo_paged_none (pi : Nat → List Rec) (N : Nat) (hN : N ≤ 100) :
    ∀ (n p : Nat) (acc : List Rec) (cnt fuel : Nat), 1 ≤ p → p + n = N → n + 1 ≤ fuel →
      fetchGo (pagedResp pi N) none fuel (some p) acc cnt
        = (acc ++ concatFrom pi p (n + 1), cnt + (n + 1)) := by
  intro n
  induction n with
  | zero =>
    intro p acc cnt fuel hp hpn hfuel
    obtain ⟨fl, rfl⟩ : ∃ fl, fuel = fl + 1 := ⟨fuel - 1, by omega⟩
    have hguard : ¬ (p = 0 ∨ 100 < p) := by omega
    have hnp : ¬ p < N := by omega
    simp [fetchGo, hguard, pagedResp, hnp, concatFrom]
  | succ m ih =>
    intro p acc cnt fuel hp hpn hfuel
    obtain ⟨fl, rfl⟩ : ∃ fl, fuel = fl + 1 := ⟨fuel - 1, by omega⟩
    have hguard : ¬ (p = 0 ∨ 100 < p) := by omega
    have hlt : p < N := by omega
    simp only [fetchGo, hguard, if_false, pagedResp, hlt, if_true]
    rw [ih (p + 1) (acc ++ pi p) (cnt + 1) fl (by omega) (by omega) (by omega)]
    congr 1
    · simp [concatFrom, List.append_assoc]
    · omega

lemma fetchGo_paged_some (pi : Nat → List Rec) (N L : Nat) (hN : N ≤ 100) :
    ∀ (n p : Nat) (acc : List Rec) (cnt fuel : Nat),
      1 ≤ p → p + n = N → n + 1 ≤ fuel → acc.length < L →
      (∃ t, (fetchGo (pagedResp pi N) (some L) fuel (some p) acc cnt).1 ++ t
          = acc ++ concatFrom pi p (n + 1))
      ∧ (L ≤ (fetchGo (pagedResp pi N) (some L) fuel (some p) acc cnt).1.length
          ∨ (fetchGo (pagedResp pi N) (some L) fuel (some p) acc cnt).1
              = acc ++ concatFrom pi p (n + 1))
      ∧ (fetchGo (pagedResp pi N) (some L) fuel (some p) acc cnt).2 ≤ cnt + (n + 1)
      ∧ ∀ j, j ≤ n → L ≤ acc.length + (concatFrom pi p (j + 1)).length →
          (fetchGo (pagedResp pi N) (some L) fuel (some p) acc cnt).2 ≤ cnt + (j + 1) := by
  intro n
  induction n with
  | zero =>
    intro p acc cnt fuel hp hpn hfuel hacc
    obtain ⟨fl, rfl⟩ : ∃ fl, fuel = fl + 1 := ⟨fuel - 1, by omega⟩
    have hguard : ¬ (p = 0 ∨ 100 < p) := by omega
    have hnp : ¬ p < N := by omega
    by_cases hstop : L ≤ (acc ++ pi p).length
    · simp only [fetchGo, hguard, if_false, pagedResp, hnp, hstop, if_true]
      refine ⟨⟨concatFrom pi (p + 1) 0, ?_⟩, Or.inl trivial, by omega, fun j _ _ => by omega⟩
      simp [concatFrom, List.append_assoc]
    · simp only [fetchGo, hguard, if_false, pagedResp, hnp, hstop, if_false]
      refine ⟨⟨[], ?_⟩, Or.inr ?_, by omega, fun j _ _ => by omega⟩
      · simp [concatFrom]
      · simp [concatFrom]
  | succ m ih =>
    intro p acc cnt fuel hp hpn hfuel hacc
    obtain ⟨fl, rfl⟩ : ∃ fl, fuel = fl + 1 := ⟨fuel - 1, by omega⟩
    have hguard : ¬ (p = 0 ∨ 100 < p) := by omega
    have hlt : p < N := by omega
    by_cases hstop : L ≤ (acc ++ pi p).length
    · simp only [fetchGo, hguard, if_false, pagedResp, hlt, if_true, hstop]
      refine ⟨⟨concatFrom pi (p + 1) (m + 1), ?_⟩, Or.inl trivial, by omega,
        fun j _ _ => by omega⟩
      simp [concatFrom, List.append_assoc]
    · have hacc2 : (acc ++ pi p).length < L := by omega
      simp only [fetchGo, hguard, if_false, pagedResp, hlt, if_true, hstop, if_false]
      obtain ⟨⟨t, ht⟩, hdisj, hcnt, hstp⟩ :=
        ih (p + 1) (acc ++ pi p) (cnt + 1) fl (by omega) (by omega) (by omega) hacc2
      have hassoc : (acc ++ pi p) ++ concatFrom pi (p + 1) (m + 1)
          = acc ++ concatFrom pi p (m + 1 + 1) := by
        simp [concatFrom, List.append_assoc]
      refine ⟨⟨t, by rw [ht, hassoc]⟩, ?_, by omega, ?_⟩
      · rcases hdisj with hdisj | hdisj
        · exact Or.inl hdisj
        · exact Or.inr (by rw [hdisj, hassoc])
      · intro j hj hlen
        match j with
        | 0 =>
          exfalso
          have : (concatFrom pi p 1).length = (pi p).length := by simp [concatFrom]
          rw [this] at hlen
          rw [List.length_append] at hstop
          omega
        | j' + 1 =>
          have hlen2 : L ≤ (acc ++ pi p).length + (concatFrom pi (p + 1) (j' + 1)).length := by
            have : (concatFrom pi p (j' + 1 + 1)).length
                = (pi p).length + (concatFrom pi (p + 1) (j' + 1)).length := by
              simp [concatFrom]
            rw [this] at hlen
            rw [List.length_append]
            omega
          have := hstp j' (by omega) hlen2
          omega

/-- C2: against a source whose pages all succeed (pages `1..N`, cursor
`p+1` until absent at page `N`, `N` within the loop's page bound), the
Fetcher starts at page 1 and returns the concatenation of the pages' items
in order after exactly `N` fetches; with a limit `L` it returns exactly
the first `L` items of that concatenation, fetches at most `N` pages, and
stops fetching once the accumulated count has reached `L`. -/
theorem fetch_all_postcondition (pi : Nat → List Rec) (N fuel : Nat)
    (h1 : 1 ≤ N) (h2 : N ≤ 100) (hfuel : N + 1 ≤ fuel) :
    fetch_all_source_items (pagedResp pi N) none fuel = (concatFrom pi 1 N, N)
    ∧ ∀ L, 1 ≤ L →
        ((fetch_all_source_items (pagedResp pi N) (some L) fuel).1
            = (concatFrom pi 1 N).take L
          ∧ (fetch_all_source_items (pagedResp pi N) (some L) fuel).2 ≤ N
          ∧ ∀ k, k < N → L ≤ (concatFrom pi 1 (k + 1)).length →
              (fetch_all_source_items (pagedResp pi N) (some L) fuel).2 ≤ k + 1) := by
  obtain ⟨n, rfl⟩ : ∃ n, N = n + 1 := ⟨N - 1, by omega⟩
  constructor
  · show (fetchGo (pagedResp pi (n + 1)) none fuel (some 1) [] 0) = _
    rw [fetchGo_paged_none pi (n + 1) h2 n 1 [] 0 fuel (le_refl 1) (by omega) (by omega)]
    simp
  · intro L hL
    obtain ⟨⟨t, ht⟩, hdisj, hcnt, hstp⟩ :=
      fetchGo_paged_some pi (n + 1) L h2 n 1 [] 0 fuel (le_refl 1) (by omega) (by omega)
        (by simpa using hL)
    rw [List.nil_append] at ht
    refine ⟨?_, ?_, ?_⟩
    · show (fetchGo (pagedResp pi (n + 1)) (some L) fuel (some 1) [] 0).1.take L = _
      rcases hdisj with hlen | heq
      · rw [← ht, List.take_append_of_le_length hlen]
      · rw [heq, List.nil_append]
    · show (fetchGo (pagedResp pi (n + 1)) (some L) fuel (some 1) [] 0).2 ≤ n + 1
      omega
    · intro k hk hlen
      show (fetchGo (pagedResp pi (n + 1)) (some L) fuel (some 1) [] 0).2 ≤ k + 1
      have := hstp k (by omega) (by simpa using hlen)
      omega

theorem fetch_all_postcondition_witness :
    (1 ≤ 2) ∧ (2 ≤ 100) ∧ (2 + 1 ≤ 101) ∧ (1 ≤ 1)
    ∧ fetch_all_source_items (pagedResp wpi 2) none 101 = (concatFrom wpi 1 2, 2)
    ∧ (fetch_all_source_items (pagedResp wpi 2) (some 1) 101).1 = (concatFrom wpi 1 2).take 1
    ∧ (fetch_all_source_items (pagedResp wpi 2) (some 1) 101).2 ≤ 2
    ∧ (0 < 2 → 1 ≤ (concatFrom wpi 1 (0 + 1)).length →
        (fetch_all_source_items (pagedResp wpi 2) (some 1) 101).2 ≤ 0 + 1) := by
  have h := fetch_all_postcondition wpi 2 101 (by omega) (by omega) (by omega)
  have h2 := h.2 1 (le_refl 1)
  exact ⟨by omega, by omega, by omega, le_refl 1, h.1, h2.1, h2.2.1,
    fun hk hl => h2.2.2 0 hk hl⟩
